import Mathlib

/-!
Shallow embedding of the merge engine of `scripts/paper_collector.py`:
the classifier (`extract_clinical_info`), the duplicate detector
(`check_duplicate_title` plus the exact-id check inside
`add_paper_to_graph`), the relevance router (`find_best_target_node`)
and the graph mutator (`add_paper_to_graph`).

Modelling conventions:
* Python strings become `String`; floats that only ever hold the exact
  literals 0.95 / 0.85 / 0.7 / 0.6 and ratios of small integers become `ℚ`
  (at every value reachable in this program the float comparisons and
  truncations agree with the exact rational ones).
* Python `int(x)` on the nonnegative values reachable here is `Int.floor`.
* `random.random()` is threaded in as two explicit rational parameters.
* Code that can raise (`references[0]` on an empty list, a missing
  `clinicalInfo` key) returns `Option`: `none` models the exception.
-/

set_option autoImplicit false
set_option maxRecDepth 4000

namespace PaperCollector

/-!
All Python string primitives are implemented by structural recursion on
the character list (`String.data`) rather than through the byte-position
based functions of the core library, so that every concrete run of the
embedded program reduces inside the kernel.  Python `str.lower` /
`str.upper` and the comparisons act per code point; the ASCII versions
used here agree with Python on every string this program manipulates
(the Korean replacement text is case-less).
-/

/-- Python `s.lower()`. -/
def lowerStr (s : String) : String :=
  String.mk (s.data.map Char.toLower)

/-- Python `s.capitalize()`: first character upper-cased, the rest
lower-cased. -/
def capitalizeStr (s : String) : String :=
  match s.data with
  | [] => s
  | c :: rest => String.mk (Char.toUpper c :: rest.map Char.toLower)

/-- Python slicing `s[:n]` (by code points). -/
def takeStr (s : String) (n : Nat) : String :=
  String.mk (s.data.take n)

/-- Python `sep.join(xs)`. -/
def joinStr (sep : String) : List String → String
  | [] => String.mk []
  | [s] => s
  | s :: rest => s ++ sep ++ joinStr sep rest

/-- Python `s.startswith(p)`. -/
def strStartsWith (s p : String) : Bool :=
  p.data.isPrefixOf s.data

/-- One pass of Python `s.replace(pat, rep)`: left-to-right,
non-overlapping.  Structural recursion on explicit fuel (one unit per
consumed character, so `length + 1` always suffices); an empty pattern
is never used by this program and leaves the text unchanged. -/
def replaceGo (pat rep : List Char) : Nat → List Char → List Char
  | 0, l => l
  | _ + 1, [] => []
  | fuel + 1, c :: rest =>
    if pat.isPrefixOf (c :: rest) && !pat.isEmpty then
      rep ++ replaceGo pat rep fuel ((c :: rest).drop pat.length)
    else
      c :: replaceGo pat rep fuel rest

/-- Python `s.replace(pat, rep)`. -/
def replaceStr (s pat rep : String) : String :=
  String.mk (replaceGo pat.data rep.data (s.data.length + 1) s.data)

/-- Python substring test `pat in s`, on the underlying character lists. -/
def containsSub (l pat : List Char) : Bool :=
  (List.range (l.length + 1)).any fun i => pat.isPrefixOf (l.drop i)

/-- Python `pat in s` for strings. -/
def strContains (s pat : String) : Bool :=
  containsSub s.data pat.data

/-- A normalized literature record, as produced by `fetch_paper_details`. -/
structure Paper where
  pmid : String
  title : String
  abstract : String
  authors : List String
  year : String
  deriving Repr, DecidableEq

/-- One entry of `clinicalInfo.references`. -/
structure Reference where
  title : String
  authors : String
  year : String
  pmid : String
  deriving Repr, DecidableEq

/-- The `clinicalInfo` payload attached to paper-derived nodes. -/
structure ClinicalInfo where
  description : String
  evidence : String
  references : List Reference
  deriving Repr, DecidableEq

/-- A graph node.  Domain nodes carry no `clinicalInfo` payload
(`clinicalInfo = none` models the absence of the dict key); the Python
dicts get their `x`/`y` keys assigned inside `add_paper_to_graph`, here
the fields are simply overwritten there. -/
structure Node where
  id : String
  label : String
  type : String
  size : ℤ
  importance : ℚ
  color : String
  x : ℚ
  y : ℚ
  clinicalInfo : Option ClinicalInfo
  deriving Repr, DecidableEq

/-- A graph edge. -/
structure Edge where
  id : String
  source : String
  target : String
  type : String
  weight : ℚ
  label : String
  deriving Repr, DecidableEq

/-- The persisted graph document: ordered node and edge sequences. -/
structure Graph where
  nodes : List Node
  edges : List Edge
  deriving Repr, DecidableEq

/-- The node ids of a graph, in insertion order. -/
def nodeIds (g : Graph) : List String :=
  g.nodes.map Node.id

/-- The keyword table of `translate_to_korean`, in source order
(Python dicts iterate in insertion order). -/
def translations : List (String × String) :=
  [("gait", "보행"), ("analysis", "분석"), ("lower limb", "하지"),
   ("lower-limb", "하지"), ("amputation", "절단"), ("prosthetic", "의족"),
   ("hip", "고관절"), ("biomechanics", "생체역학"), ("hop", "호핑"),
   ("stabilization", "안정화"), ("training", "훈련"), ("landing", "착지"),
   ("nocturnal", "야간"), ("leg cramps", "다리 경련"),
   ("neuromuscular", "신경근"), ("fatigue", "피로"),
   ("calf muscle", "종아리근"), ("activation", "활성화"),
   ("kinesio taping", "키네시오테이핑"), ("effects", "효과"),
   ("management", "치료"), ("lumbar", "요추"),
   ("spinal stenosis", "척추관 협착증"), ("phlebotonics", "정맥순환개선제"),
   ("venous insufficiency", "정맥부전"),
   ("chronic venous disease", "만성 정맥질환"),
   ("entrapment neuropathies", "신경포착증후군"), ("extremity", "사지"),
   ("peroneal nerve", "비골신경"), ("palsy", "마비"),
   ("evaluation", "평가"), ("muscle", "근육"), ("nerve", "신경"),
   ("compression", "압박"), ("vascular", "혈관"), ("blood flow", "혈류")]

/-- `translate_to_korean`: lower-case, apply every replacement in table
order, then capitalize the first character (the Python `capitalize` also
lower-cases the rest, which is the identity here because the text was
already lower-cased and the replacements introduce no upper-case). -/
def translate_to_korean (title : String) : String :=
  capitalizeStr (translations.foldl (fun s p => replaceStr s p.1 p.2) (lowerStr title))

/-- `extract_clinical_info`: classify a paper into a node candidate. -/
def extract_clinical_info (paper : Paper) : Node :=
  let abstract := lowerStr paper.abstract
  let title_korean := translate_to_korean paper.title
  let label := (takeStr title_korean 40) ++ "..."
  let tc : String × String :=
    if strContains abstract "muscle" || strContains abstract "fatigue" then
      ("cause", "#ff9800")
    else if strContains abstract "nerve" || strContains abstract "compression" then
      ("cause", "#3f51b5")
    else if strContains abstract "vascular" || strContains abstract "blood flow" then
      ("cause", "#9c27b0")
    else
      ("evidence", "#607d8b")
  let evidence_strength : ℚ :=
    if strContains abstract "systematic review" then 95/100
    else if strContains abstract "randomized" then 85/100
    else if strContains abstract "case study" then 6/10
    else 7/10
  let joined := joinStr ", " paper.authors
  { id := "paper-" ++ paper.pmid
    label := label
    type := tc.1
    size := 15 + Int.floor (evidence_strength * 10)
    importance := evidence_strength
    color := tc.2
    x := 0
    y := 0
    clinicalInfo := some
      { description := (takeStr paper.abstract 200) ++ "..."
        evidence := paper.title ++ " (" ++ joined ++ ", " ++ paper.year ++ ")"
        references := [{ title := paper.title, authors := joined,
                         year := paper.year, pmid := paper.pmid }] } }

/-- Length of the longest common prefix of two character lists. -/
def commonPrefixLen : List Char → List Char → Nat
  | a :: as, b :: bs => if a = b then commonPrefixLen as bs + 1 else 0
  | _, _ => 0

/-- `difflib.SequenceMatcher.find_longest_match` over the whole strings
(no junk: the second argument of `SequenceMatcher(None, ..)` is `None`
and both strings are far below the autojunk threshold of 200):
the triple `(i, j, k)` of a longest matching block `a[i:i+k] = b[j:j+k]`,
ties broken towards the smallest `i`, then the smallest `j` (the scan
below visits candidates in exactly that order and only replaces the
accumulator on a strictly longer match). -/
def bestBlock (a b : List Char) : Nat × Nat × Nat :=
  (List.range a.length).foldl
    (fun acc i =>
      (List.range b.length).foldl
        (fun acc2 j =>
          let k := commonPrefixLen (a.drop i) (b.drop j)
          if acc2.2.2 < k then (i, j, k) else acc2)
        acc)
    (0, 0, 0)

/-- Total size of the matching blocks of Ratcliff/Obershelp
(`difflib.SequenceMatcher.get_matching_blocks`): take the longest
matching block and recurse on the pieces left and right of it.  Each
recursive call strictly shrinks the first list, so any fuel above
`a.length` is enough; `matchSum` below passes `a.length + 1`. -/
def matchSumGo : Nat → List Char → List Char → Nat
  | 0, _, _ => 0
  | fuel + 1, a, b =>
    let r := bestBlock a b
    if r.2.2 = 0 then 0
    else
      r.2.2 + matchSumGo fuel (a.take r.1) (b.take r.2.1)
            + matchSumGo fuel (a.drop (r.1 + r.2.2)) (b.drop (r.2.1 + r.2.2))

/-- Sum of the sizes of all matching blocks of two character lists. -/
def matchSum (a b : List Char) : Nat :=
  matchSumGo (a.length + 1) a b

/-- `difflib.SequenceMatcher(None, a, b).ratio()`:
`2 * matches / (len(a) + len(b))`, and `1` when both are empty. -/
def simRatio (a b : String) : ℚ :=
  let ta := a.data
  let tb := b.data
  if ta.length + tb.length = 0 then 1
  else (2 * (matchSum ta tb : ℚ)) / ((ta.length : ℚ) + (tb.length : ℚ))

/-- Unfolding of `simRatio` on nonempty input. -/
theorem simRatio_eq (a b : String)
    (h : ¬ a.data.length + b.data.length = 0) :
    simRatio a b = 2 * (matchSum a.data b.data : ℚ) /
      ((a.data.length : ℚ) + (b.data.length : ℚ)) := by
  simp only [simRatio]
  rw [if_neg h]

/-- The scan of `check_duplicate_title` over the node list.  Result:
`some (some id)` stands for the Python `(True, id)` (duplicate found),
`some none` for `(False, None)`, and `none` models the `IndexError`
raised by `references[0]` when a scanned paper node carries an empty
reference list. -/
def checkDupAux (title : String) : List Node → Option (Option String)
  | [] => some none
  | n :: rest =>
    if strStartsWith n.id "paper-" && n.clinicalInfo.isSome then
      match n.clinicalInfo with
      | none => checkDupAux title rest
      | some ci =>
        match ci.references with
        | [] => none
        | ref :: _ =>
          if 4/5 < simRatio (lowerStr title) (lowerStr ref.title) then
            some (some n.id)
          else checkDupAux title rest
    else checkDupAux title rest

/-- `check_duplicate_title(graph, title)`. -/
def check_duplicate_title (g : Graph) (title : String) : Option (Option String) :=
  checkDupAux title g.nodes

/-- The additive keyword score of `find_best_target_node` for one node id
against the combined paper content. -/
def scoreNode (content id : String) : Nat :=
  (if strContains content "muscle" || strContains content "fatigue" then
    (if strContains id "muscle-fatigue" || strContains id "gastrocnemius"
        || strContains id "soleus" then 10
     else if strContains id "atp" || strContains id "lactate"
        || strContains id "mitochondrial" then 8
     else 0)
   else 0)
  + (if strContains content "nerve" || strContains content "compression"
        || strContains content "neuropath" then
      (if strContains id "nerve-compression" then 10
       else if strContains id "tibialis" || strContains id "fibularis" then 7
       else 0)
     else 0)
  + (if strContains content "vascular" || strContains content "blood"
        || strContains content "venous" then
      (if strContains id "vascular-insufficiency" then 10 else 0)
     else 0)
  + (if strContains content "gait" || strContains content "biomechanical"
        || strContains content "movement" then
      (if strContains id "biomechanical-dysfunction"
          || strContains id "gait-abnormality" then 10
       else if strContains id "ankle" || strContains id "hip" then 7
       else 0)
     else 0)
  + (if strContains content "training" || strContains content "exercise" then
      (if strContains id "training-load" || strContains id "overuse" then 8
       else 0)
     else 0)

/-- The `(score, node_id)` pairs collected by `find_best_target_node`, in
node insertion order: domain nodes only (ids not starting with
`paper-`), and only entries with a positive score. -/
def scoredNodes (content : String) (nodes : List Node) : List (Nat × String) :=
  nodes.filterMap fun n =>
    if strStartsWith n.id "paper-" then none
    else if 0 < scoreNode content n.id then some (scoreNode content n.id, n.id)
    else none

/-- Maximum of a nonempty list of `(score, id)` pairs under the Python
tuple order.  `node_scores.sort(reverse=True)` followed by
`node_scores[0]` returns exactly the maximal pair under the
lexicographic tuple order (for equal pairs stability is irrelevant:
the values coincide), which this fold computes directly. -/
def bestPair (b : Nat × String) : List (Nat × String) → Nat × String
  | [] => b
  | p :: rest =>
    bestPair (if b.1 < p.1 ∨ (b.1 = p.1 ∧ b.2.toList < p.2.toList) then p else b) rest

/-- The final step of `find_best_target_node`: the id of the maximal
scored pair, or the fallback `"calf-pain"` when no node scored. -/
def chooseTarget : List (Nat × String) → String
  | [] => "calf-pain"
  | p :: rest => (bestPair p rest).2

/-- The combined lower-cased abstract and title the router scores
against. -/
def contentOf (paper : Paper) : String :=
  lowerStr paper.abstract ++ " " ++ lowerStr paper.title

/-- `find_best_target_node(paper, graph)`. -/
def find_best_target_node (paper : Paper) (g : Graph) : String :=
  chooseTarget (scoredNodes (contentOf paper) g.nodes)

/-- The coordinate assignment `node['x'] = (random.random() - 0.5) * 400`
(and the same for `y`), with the two draws passed in as `r1`, `r2`. -/
def setPos (r1 r2 : ℚ) (node : Node) : Node :=
  { node with x := (r1 - 1/2) * 400, y := (r2 - 1/2) * 400 }

/-- The evidence edge built by `add_paper_to_graph` for an accepted
candidate: id derived from the current edge count, source the new node,
weight the evidential strength, label embedding the citation year. -/
def mkEdge (g : Graph) (node : Node) (target : String) (ref : Reference) : Edge :=
  { id := "edge-" ++ toString (g.edges.length + 1)
    source := node.id
    target := target
    type := "evidence"
    weight := node.importance
    label := "논문 증거 (" ++ ref.year ++ ")" }

/-- `add_paper_to_graph(graph, node, paper)`.  The two draws of
`random.random()` are passed in as `r1`, `r2`.  Result `none` models an
uncaught exception (`IndexError` in the duplicate scan, or the candidate
missing its `clinicalInfo`/reference when the edge label is built);
otherwise `some (ok, message, new graph)`.  In the second exception case
Python would already have appended the node before raising while
building the edge; the model collapses this to `none` without the
partial mutation, which is unreachable in the pipeline because
`extract_clinical_info` always attaches exactly one reference. -/
def add_paper_to_graph (r1 r2 : ℚ) (g : Graph) (node : Node) (paper : Paper) :
    Option (Bool × String × Graph) :=
  if node.id ∈ nodeIds g then some (false, "Already exists (same PMID)", g)
  else
    match check_duplicate_title g paper.title with
    | none => none
    | some (some dupId) =>
      some (false, "Duplicate title (similar to " ++ dupId ++ ")", g)
    | some none =>
      let target := find_best_target_node paper g
      let node' := setPos r1 r2 node
      match node'.clinicalInfo with
      | none => none
      | some ci =>
        match ci.references with
        | [] => none
        | ref :: _ =>
          some (true, "Connected to " ++ target,
                { nodes := g.nodes ++ [node'],
                  edges := g.edges ++ [mkEdge g node' target ref] })

/-- One iteration of the collection loop in `main`: build the candidate
with `extract_clinical_info` and commit it with `add_paper_to_graph`.
The triple `q` carries the two random draws and the paper. -/
def runStep (g : Graph) (q : ℚ × ℚ × Paper) : Option (Bool × Graph) :=
  (add_paper_to_graph q.1 q.2.1 g (extract_clinical_info q.2.2) q.2.2).map
    fun r => (r.1, r.2.2)

/-- The collection loop of `main` over a list of fetched papers;
`none` models an uncaught exception aborting the run. -/
def runPapers : Graph → List (ℚ × ℚ × Paper) → Option Graph
  | g, [] => some g
  | g, q :: qs =>
    match runStep g q with
    | none => none
    | some (_, g') => runPapers g' qs

/-- The derived node ids of the papers accepted during a run, in order
(empty from the point of an aborting exception on). -/
def acceptedIds : Graph → List (ℚ × ℚ × Paper) → List String
  | _, [] => []
  | g, q :: qs =>
    match runStep g q with
    | none => []
    | some (ok, g') =>
      (if ok then ["paper-" ++ q.2.2.pmid] else []) ++ acceptedIds g' qs

/-- Number of nodes of `g` carrying the id `id`. -/
def countNodes (g : Graph) (id : String) : Nat :=
  (g.nodes.filter fun n => n.id = id).length

/-- Number of edges of `g` whose source is `id`. -/
def countSrc (g : Graph) (id : String) : Nat :=
  (g.edges.filter fun e => e.source = id).length

/-- Node ids are pairwise distinct (spec invariant I1). -/
def idsNodup (g : Graph) : Prop :=
  (nodeIds g).Nodup

/-- Every edge source is an existing node id (half of spec invariant I3). -/
def srcOK (g : Graph) : Prop :=
  ∀ e ∈ g.edges, e.source ∈ nodeIds g

/-- Spec invariant I3: every edge references existing node ids at both
ends. -/
def edgesOK (g : Graph) : Prop :=
  ∀ e ∈ g.edges, e.source ∈ nodeIds g ∧ e.target ∈ nodeIds g

/-- Every paper-derived node that carries a `clinicalInfo` payload has a
nonempty reference list, so the duplicate scan never indexes out of
range. -/
def refsOK (g : Graph) : Prop :=
  ∀ n ∈ g.nodes, strStartsWith n.id "paper-" = true →
    ∀ ci, n.clinicalInfo = some ci → ci.references ≠ []

/-- The combined well-formedness used for the sequence theorems. -/
def WF (g : Graph) : Prop :=
  idsNodup g ∧ srcOK g ∧ refsOK g

/-- Modelled from the spec (section 4.1): the classification rule table,
"first matching rule wins, evaluated in this fixed priority order
against the lower-cased abstract text"; the four color tokens A-D are
instantiated with the concrete colors of the code. -/
def catColorSpec (abstract : String) : String × String :=
  let t := lowerStr abstract
  if strContains t "muscle" || strContains t "fatigue" then ("cause", "#ff9800")
  else if strContains t "nerve" || strContains t "compression" then ("cause", "#3f51b5")
  else if strContains t "vascular" || strContains t "blood flow" then ("cause", "#9c27b0")
  else ("evidence", "#607d8b")

/-- Modelled from the spec (section 4.1): evidential strength,
"first match wins" over the lower-cased abstract. -/
def strengthSpec (abstract : String) : ℚ :=
  let t := lowerStr abstract
  if strContains t "systematic review" then 95/100
  else if strContains t "randomized" then 85/100
  else if strContains t "case study" then 6/10
  else 7/10

/-! ### Helper lemmas -/

@[simp] theorem setPos_id (r1 r2 : ℚ) (node : Node) :
    (setPos r1 r2 node).id = node.id := rfl

@[simp] theorem setPos_clinicalInfo (r1 r2 : ℚ) (node : Node) :
    (setPos r1 r2 node).clinicalInfo = node.clinicalInfo := rfl

@[simp] theorem setPos_importance (r1 r2 : ℚ) (node : Node) :
    (setPos r1 r2 node).importance = node.importance := rfl

/-- The `clinicalInfo` payload the classifier attaches, spelled out. -/
theorem extract_refs (paper : Paper) :
    (extract_clinical_info paper).clinicalInfo = some (ClinicalInfo.mk
      ((takeStr paper.abstract 200) ++ "...")
      (paper.title ++ " (" ++ joinStr ", " paper.authors ++ ", " ++ paper.year ++ ")")
      [Reference.mk paper.title (joinStr ", " paper.authors) paper.year paper.pmid]) :=
  rfl

theorem add_of_mem {g : Graph} {node : Node} (r1 r2 : ℚ) (paper : Paper)
    (h : node.id ∈ nodeIds g) :
    add_paper_to_graph r1 r2 g node paper =
      some (false, "Already exists (same PMID)", g) := by
  simp [add_paper_to_graph, h]

theorem add_success_elim {r1 r2 : ℚ} {g : Graph} {node : Node} {paper : Paper}
    {msg : String} {g' : Graph}
    (h : add_paper_to_graph r1 r2 g node paper = some (true, msg, g')) :
    node.id ∉ nodeIds g ∧
    check_duplicate_title g paper.title = some none ∧
    ∃ ci ref rest, node.clinicalInfo = some ci ∧ ci.references = ref :: rest ∧
      msg = "Connected to " ++ find_best_target_node paper g ∧
      g' = { nodes := g.nodes ++ [setPos r1 r2 node],
             edges := g.edges ++
               [mkEdge g (setPos r1 r2 node) (find_best_target_node paper g) ref] } := by
  by_cases hmem : node.id ∈ nodeIds g
  · simp [add_paper_to_graph, hmem] at h
  · refine ⟨hmem, ?_⟩
    rw [add_paper_to_graph, if_neg hmem] at h
    cases hc : check_duplicate_title g paper.title with
    | none => rw [hc] at h; simp at h
    | some o =>
      cases o with
      | some dupId => rw [hc] at h; simp at h
      | none =>
        rw [hc] at h
        refine ⟨rfl, ?_⟩
        cases hci : node.clinicalInfo with
        | none => simp [hci] at h
        | some ci =>
          cases hrefs : ci.references with
          | nil => simp [hci, hrefs] at h
          | cons ref rest =>
            simp only [setPos_clinicalInfo, hci, hrefs] at h
            injection h with h1
            injection h1 with h2 h3
            injection h3 with hmsg hg
            exact ⟨ci, ref, rest, rfl, hrefs, hmsg.symm, hg.symm⟩

theorem add_reject_elim {r1 r2 : ℚ} {g : Graph} {node : Node} {paper : Paper}
    {msg : String} {g' : Graph}
    (h : add_paper_to_graph r1 r2 g node paper = some (false, msg, g')) :
    g' = g := by
  by_cases hmem : node.id ∈ nodeIds g
  · rw [add_of_mem r1 r2 paper hmem] at h
    injection h with h1
    injection h1 with h2 h3
    injection h3 with hmsg hg
    exact hg.symm
  · rw [add_paper_to_graph, if_neg hmem] at h
    cases hc : check_duplicate_title g paper.title with
    | none => rw [hc] at h; simp at h
    | some o =>
      cases o with
      | some dupId =>
        rw [hc] at h
        injection h with h1
        injection h1 with h2 h3
        injection h3 with hmsg hg
        exact hg.symm
      | none =>
        rw [hc] at h
        cases hci : node.clinicalInfo with
        | none => simp [hci] at h
        | some ci =>
          cases hrefs : ci.references with
          | nil => simp [hci, hrefs] at h
          | cons ref rest => simp [hci, hrefs] at h

theorem checkDupAux_total {title : String} {l : List Node}
    (h : ∀ n ∈ l, strStartsWith n.id "paper-" = true →
      ∀ ci, n.clinicalInfo = some ci → ci.references ≠ []) :
    ∃ o, checkDupAux title l = some o := by
  induction l with
  | nil => exact ⟨none, rfl⟩
  | cons n rest ih =>
    have hrest : ∀ m ∈ rest, strStartsWith m.id "paper-" = true →
        ∀ ci, m.clinicalInfo = some ci → ci.references ≠ [] :=
      fun m hm => h m (List.mem_cons_of_mem n hm)
    by_cases hscan : (strStartsWith n.id "paper-" && n.clinicalInfo.isSome) = true
    · have hp : strStartsWith n.id "paper-" = true := (Bool.and_eq_true .. ▸ hscan).1
      cases hci : n.clinicalInfo with
      | none =>
        rw [hci] at hscan
        simp at hscan
      | some ci =>
        cases hrefs : ci.references with
        | nil =>
          exact absurd hrefs (h n (List.mem_cons_self n rest) hp ci hci)
        | cons ref rrest =>
          by_cases hsim : 4/5 < simRatio (lowerStr title) (lowerStr ref.title)
          · exact ⟨some n.id, by simp [checkDupAux, hp, hci, hrefs, hsim]⟩
          · obtain ⟨o, ho⟩ := ih hrest
            exact ⟨o, by simp [checkDupAux, hp, hci, hrefs, hsim, ho]⟩
    · obtain ⟨o, ho⟩ := ih hrest
      refine ⟨o, ?_⟩
      rw [checkDupAux, if_neg hscan]
      exact ho

theorem checkDupAux_finds {title : String} {pre post : List Node} {n : Node}
    {ci : ClinicalInfo} {ref : Reference} {rest : List Reference}
    (hn : strStartsWith n.id "paper-" = true)
    (hci : n.clinicalInfo = some ci)
    (href : ci.references = ref :: rest)
    (hsim : 4/5 < simRatio (lowerStr title) (lowerStr ref.title))
    (hpre : ∀ m ∈ pre, strStartsWith m.id "paper-" = true →
      ∀ ci', m.clinicalInfo = some ci' →
        ∃ r rs, ci'.references = r :: rs ∧
          simRatio (lowerStr title) (lowerStr r.title) ≤ 4/5) :
    checkDupAux title (pre ++ n :: post) = some (some n.id) := by
  induction pre with
  | nil =>
    simp [List.nil_append, checkDupAux, hn, hci, href, hsim]
  | cons m mrest ih =>
    have hm := hpre m (List.mem_cons_self m mrest)
    have htail : ∀ m' ∈ mrest, strStartsWith m'.id "paper-" = true →
        ∀ ci', m'.clinicalInfo = some ci' →
          ∃ r rs, ci'.references = r :: rs ∧
            simRatio (lowerStr title) (lowerStr r.title) ≤ 4/5 :=
      fun m' hm' => hpre m' (List.mem_cons_of_mem m hm')
    by_cases hscan : (strStartsWith m.id "paper-" && m.clinicalInfo.isSome) = true
    · have hp : strStartsWith m.id "paper-" = true := (Bool.and_eq_true .. ▸ hscan).1
      cases hmci : m.clinicalInfo with
      | none => rw [hmci] at hscan; simp at hscan
      | some ci' =>
        obtain ⟨r, rs, hr, hle⟩ := hm hp ci' hmci
        have hnot : ¬ 4/5 < simRatio (lowerStr title) (lowerStr r.title) :=
          not_lt.mpr hle
        rw [List.cons_append]
        simp only [checkDupAux, hp, hmci, hr]
        simp only [Option.isSome_some, Bool.and_true, if_true, if_neg hnot]
        exact ih htail
    · rw [List.cons_append, checkDupAux, if_neg hscan]
      exact ih htail

/-- When every scanned node stays at or below the threshold, the scan
reports no duplicate. -/
theorem checkDupAux_none {title : String} {l : List Node}
    (h : ∀ n ∈ l, strStartsWith n.id "paper-" = true →
      ∀ ci, n.clinicalInfo = some ci →
        ∃ r rs, ci.references = r :: rs ∧
          simRatio (lowerStr title) (lowerStr r.title) ≤ 4/5) :
    checkDupAux title l = some none := by
  induction l with
  | nil => rfl
  | cons n rest ih =>
    have htail : ∀ m ∈ rest, strStartsWith m.id "paper-" = true →
        ∀ ci, m.clinicalInfo = some ci →
          ∃ r rs, ci.references = r :: rs ∧
            simRatio (lowerStr title) (lowerStr r.title) ≤ 4/5 :=
      fun m hm => h m (List.mem_cons_of_mem n hm)
    by_cases hscan : (strStartsWith n.id "paper-" && n.clinicalInfo.isSome) = true
    · have hp : strStartsWith n.id "paper-" = true :=
        (Bool.and_eq_true .. ▸ hscan).1
      cases hci : n.clinicalInfo with
      | none => rw [hci] at hscan; simp at hscan
      | some ci =>
        obtain ⟨r, rs, hr, hle⟩ := h n (List.mem_cons_self n rest) hp ci hci
        have hnot : ¬ 4/5 < simRatio (lowerStr title) (lowerStr r.title) :=
          not_lt.mpr hle
        simp only [checkDupAux, hp, hci, hr]
        simp only [Option.isSome_some, Bool.and_true, if_true, if_neg hnot]
        exact ih htail
    · rw [checkDupAux, if_neg hscan]
      exact ih htail

theorem add_total {g : Graph} {node : Node} {ci : ClinicalInfo}
    (r1 r2 : ℚ) (paper : Paper)
    (hwf : refsOK g)
    (hci : node.clinicalInfo = some ci) (hrefs : ci.references ≠ []) :
    ∃ res, add_paper_to_graph r1 r2 g node paper = some res := by
  by_cases hmem : node.id ∈ nodeIds g
  · exact ⟨_, add_of_mem r1 r2 paper hmem⟩
  · obtain ⟨o, ho⟩ := @checkDupAux_total paper.title g.nodes hwf
    have ho' : check_duplicate_title g paper.title = some o := ho
    cases o with
    | some dupId =>
      exact ⟨(false, "Duplicate title (similar to " ++ dupId ++ ")", g),
        by simp only [add_paper_to_graph, if_neg hmem, ho']⟩
    | none =>
      cases hr : ci.references with
      | nil => exact absurd hr hrefs
      | cons ref rrest =>
        exact ⟨(true, "Connected to " ++ find_best_target_node paper g,
          { nodes := g.nodes ++ [setPos r1 r2 node],
            edges := g.edges ++
              [mkEdge g (setPos r1 r2 node) (find_best_target_node paper g) ref] }),
          by simp only [add_paper_to_graph, if_neg hmem, ho',
            setPos_clinicalInfo, hci, hr]⟩

/-- The (non-strict) Python tuple order on `(score, id)` pairs. -/
def pairLe (a b : Nat × String) : Prop :=
  a.1 < b.1 ∨ (a.1 = b.1 ∧ a.2 ≤ b.2)

theorem pairLe_refl (a : Nat × String) : pairLe a a :=
  Or.inr ⟨rfl, le_refl _⟩

theorem pairLe_trans {a b c : Nat × String}
    (hab : pairLe a b) (hbc : pairLe b c) : pairLe a c := by
  rcases hab with h1 | ⟨h1, h1'⟩ <;> rcases hbc with h2 | ⟨h2, h2'⟩
  · exact Or.inl (h1.trans h2)
  · exact Or.inl (h2 ▸ h1)
  · exact Or.inl (h1 ▸ h2)
  · exact Or.inr ⟨h1.trans h2, h1'.trans h2'⟩

theorem pairLe_antisymm {a b : Nat × String}
    (hab : pairLe a b) (hba : pairLe b a) : a = b := by
  rcases hab with h1 | ⟨h1, h1'⟩ <;> rcases hba with h2 | ⟨h2, h2'⟩
  · exact absurd h2 (lt_asymm h1)
  · exact absurd h2 (ne_of_gt h1)
  · exact absurd h1 (ne_of_gt h2)
  · exact Prod.ext h1 (le_antisymm h1' h2')

/-- The strict condition used in `bestPair` is the negation of the
reverse non-strict order. -/
theorem not_pairCond_iff (b p : Nat × String) :
    ¬(b.1 < p.1 ∨ (b.1 = p.1 ∧ b.2 < p.2)) ↔ pairLe p b := by
  constructor
  · intro h
    push_neg at h
    obtain ⟨h1, h2⟩ := h
    rcases lt_or_eq_of_le h1 with hlt | heq
    · exact Or.inl hlt
    · exact Or.inr ⟨heq, h2 heq.symm⟩
  · intro h hc
    rcases h with h | ⟨h, h'⟩ <;> rcases hc with hc | ⟨hc, hc'⟩
    · exact lt_asymm h hc
    · exact ne_of_lt h hc.symm
    · exact ne_of_lt hc h.symm
    · exact not_lt.mpr h' hc'

theorem pairCond_le {b p : Nat × String}
    (h : b.1 < p.1 ∨ (b.1 = p.1 ∧ b.2 < p.2)) : pairLe b p := by
  rcases h with h | ⟨h, h'⟩
  · exact Or.inl h
  · exact Or.inr ⟨h, le_of_lt h'⟩

/-- The comparison in `bestPair` acts on the character lists; it agrees
with the Mathlib order on `String`. -/
theorem pairCond_iff (b p : Nat × String) :
    (b.1 < p.1 ∨ (b.1 = p.1 ∧ b.2.toList < p.2.toList)) ↔
      (b.1 < p.1 ∨ (b.1 = p.1 ∧ b.2 < p.2)) := by
  rw [String.lt_iff_toList_lt]

theorem bestPair_mem : ∀ (l : List (Nat × String)) (b : Nat × String),
    bestPair b l = b ∨ bestPair b l ∈ l := by
  intro l
  induction l with
  | nil => exact fun b => Or.inl rfl
  | cons p rest ih =>
    intro b
    rw [bestPair]
    simp only [pairCond_iff]
    by_cases hc : b.1 < p.1 ∨ (b.1 = p.1 ∧ b.2 < p.2)
    · rw [if_pos hc]
      rcases ih p with h | h
      · exact Or.inr (by rw [h]; exact List.mem_cons_self p rest)
      · exact Or.inr (List.mem_cons_of_mem p h)
    · rw [if_neg hc]
      rcases ih b with h | h
      · exact Or.inl h
      · exact Or.inr (List.mem_cons_of_mem p h)

theorem bestPair_ub : ∀ (l : List (Nat × String)) (b : Nat × String),
    pairLe b (bestPair b l) ∧ ∀ x ∈ l, pairLe x (bestPair b l) := by
  intro l
  induction l with
  | nil => exact fun b => ⟨pairLe_refl b, by simp⟩
  | cons p rest ih =>
    intro b
    rw [bestPair]
    simp only [pairCond_iff]
    by_cases hc : b.1 < p.1 ∨ (b.1 = p.1 ∧ b.2 < p.2)
    · rw [if_pos hc]
      obtain ⟨h1, h2⟩ := ih p
      refine ⟨pairLe_trans (pairCond_le hc) h1, ?_⟩
      intro x hx
      rcases List.mem_cons.mp hx with rfl | hx
      · exact h1
      · exact h2 x hx
    · rw [if_neg hc]
      obtain ⟨h1, h2⟩ := ih b
      refine ⟨h1, ?_⟩
      intro x hx
      rcases List.mem_cons.mp hx with rfl | hx
      · exact pairLe_trans ((not_pairCond_iff b x).mp hc) h1
      · exact h2 x hx

/-- `bestPair b l` is a maximum of `b :: l` under the tuple order. -/
theorem bestPair_isMax (b : Nat × String) (l : List (Nat × String)) :
    bestPair b l ∈ b :: l ∧ ∀ y ∈ b :: l, pairLe y (bestPair b l) := by
  constructor
  · rcases bestPair_mem l b with h | h
    · rw [h]; exact List.mem_cons_self b l
    · exact List.mem_cons_of_mem b h
  · intro y hy
    rcases List.mem_cons.mp hy with rfl | hy
    · exact (bestPair_ub l y).1
    · exact (bestPair_ub l b).2 y hy

theorem chooseTarget_perm {l l' : List (Nat × String)} (h : l.Perm l') :
    chooseTarget l = chooseTarget l' := by
  cases l with
  | nil =>
    cases l' with
    | nil => rfl
    | cons p' rest' => exact absurd h (by simp)
  | cons p rest =>
    cases l' with
    | nil => exact absurd h (by simp)
    | cons p' rest' =>
      obtain ⟨hm, hub⟩ := bestPair_isMax p rest
      obtain ⟨hm', hub'⟩ := bestPair_isMax p' rest'
      have : bestPair p rest = bestPair p' rest' :=
        pairLe_antisymm
          (hub' _ (h.mem_iff.mp hm))
          (hub _ (h.mem_iff.mpr hm'))
      rw [chooseTarget, chooseTarget, this]

theorem scoredNodes_mem {content : String} {nodes : List Node}
    {x : Nat × String} :
    x ∈ scoredNodes content nodes ↔
      ∃ n ∈ nodes, strStartsWith n.id "paper-" = false ∧
        0 < scoreNode content n.id ∧ x = (scoreNode content n.id, n.id) := by
  rw [scoredNodes, List.mem_filterMap]
  constructor
  · rintro ⟨n, hn, hf⟩
    by_cases hpref : strStartsWith n.id "paper-" = true
    · rw [if_pos hpref] at hf
      exact absurd hf (by simp)
    · rw [if_neg hpref] at hf
      by_cases hs : 0 < scoreNode content n.id
      · rw [if_pos hs] at hf
        exact ⟨n, hn, Bool.not_eq_true _ ▸ hpref, hs,
          (Option.some_inj.mp hf).symm⟩
      · rw [if_neg hs] at hf
        exact absurd hf (by simp)
  · rintro ⟨n, hn, hpref, hs, rfl⟩
    refine ⟨n, hn, ?_⟩
    rw [if_neg (by simp [hpref]), if_pos hs]

theorem find_best_perm {g g' : Graph} (paper : Paper)
    (h : g.nodes.Perm g'.nodes) :
    find_best_target_node paper g = find_best_target_node paper g' :=
  chooseTarget_perm (h.filterMap _)

theorem find_best_max {g : Graph} {paper : Paper}
    (hex : ∃ n ∈ g.nodes, strStartsWith n.id "paper-" = false ∧
      0 < scoreNode (contentOf paper) n.id) :
    (∃ n ∈ g.nodes, strStartsWith n.id "paper-" = false ∧
      n.id = find_best_target_node paper g ∧
      0 < scoreNode (contentOf paper) n.id) ∧
    ∀ n ∈ g.nodes, strStartsWith n.id "paper-" = false →
      scoreNode (contentOf paper) n.id ≤
        scoreNode (contentOf paper) (find_best_target_node paper g) := by
  obtain ⟨n, hn, hpref, hs⟩ := hex
  have hmem : (scoreNode (contentOf paper) n.id, n.id) ∈
      scoredNodes (contentOf paper) g.nodes :=
    scoredNodes_mem.mpr ⟨n, hn, hpref, hs, rfl⟩
  cases hsc : scoredNodes (contentOf paper) g.nodes with
  | nil => rw [hsc] at hmem; exact absurd hmem (by simp)
  | cons p rest =>
    have hfb : find_best_target_node paper g = (bestPair p rest).2 := by
      rw [find_best_target_node, hsc, chooseTarget]
    obtain ⟨hbm, hub⟩ := bestPair_isMax p rest
    rw [← hsc] at hbm hub
    obtain ⟨nb, hnb, hnbpref, hnbs, hnbeq⟩ := scoredNodes_mem.mp hbm
    have hb2 : (bestPair p rest).2 = nb.id := by rw [hnbeq]
    have hb1 : (bestPair p rest).1 =
        scoreNode (contentOf paper) (bestPair p rest).2 := by
      rw [hnbeq]
    constructor
    · exact ⟨nb, hnb, hnbpref, by rw [hfb, hb2], hnbs⟩
    · intro m hm hmpref
      by_cases hms : 0 < scoreNode (contentOf paper) m.id
      · have hmmem : (scoreNode (contentOf paper) m.id, m.id) ∈
            scoredNodes (contentOf paper) g.nodes :=
          scoredNodes_mem.mpr ⟨m, hm, hmpref, hms, rfl⟩
        have hle := hub _ hmmem
        rw [hfb, ← hb1]
        rcases hle with h | ⟨h, _⟩
        · exact le_of_lt h
        · exact le_of_eq h
      · rw [not_lt] at hms
        exact le_trans hms (Nat.zero_le _)

theorem find_best_fallback {g : Graph} {paper : Paper}
    (hall : ∀ n ∈ g.nodes, strStartsWith n.id "paper-" = false →
      scoreNode (contentOf paper) n.id = 0) :
    find_best_target_node paper g = "calf-pain" := by
  cases hsc : scoredNodes (contentOf paper) g.nodes with
  | nil => rw [find_best_target_node, hsc, chooseTarget]
  | cons p rest =>
    exfalso
    have hmem : p ∈ scoredNodes (contentOf paper) g.nodes := by
      rw [hsc]; exact List.mem_cons_self p rest
    obtain ⟨n, hn, hpref, hs, -⟩ := scoredNodes_mem.mp hmem
    exact absurd (hall n hn hpref) (Nat.pos_iff_ne_zero.mp hs)

theorem find_best_cases (g : Graph) (paper : Paper) :
    find_best_target_node paper g = "calf-pain" ∨
    ∃ n ∈ g.nodes, strStartsWith n.id "paper-" = false ∧
      n.id = find_best_target_node paper g := by
  cases hsc : scoredNodes (contentOf paper) g.nodes with
  | nil => exact Or.inl (by rw [find_best_target_node, hsc, chooseTarget])
  | cons p rest =>
    have hfb : find_best_target_node paper g = (bestPair p rest).2 := by
      rw [find_best_target_node, hsc, chooseTarget]
    have hbm : bestPair p rest ∈ scoredNodes (contentOf paper) g.nodes := by
      rw [hsc]; exact (bestPair_isMax p rest).1
    obtain ⟨n, hn, hpref, -, hEq⟩ := scoredNodes_mem.mp hbm
    exact Or.inr ⟨n, hn, hpref, by rw [hfb, hEq]⟩

/-- Every positively scoring domain node is bounded by the chosen target
in the full tuple order (score first, then id). -/
theorem find_best_pair_ub {g : Graph} {paper : Paper} {n : Node}
    (hn : n ∈ g.nodes) (hdom : strStartsWith n.id "paper-" = false)
    (hpos : 0 < scoreNode (contentOf paper) n.id) :
    pairLe (scoreNode (contentOf paper) n.id, n.id)
      (scoreNode (contentOf paper) (find_best_target_node paper g),
        find_best_target_node paper g) := by
  have hmem : (scoreNode (contentOf paper) n.id, n.id) ∈
      scoredNodes (contentOf paper) g.nodes :=
    scoredNodes_mem.mpr ⟨n, hn, hdom, hpos, rfl⟩
  cases hsc : scoredNodes (contentOf paper) g.nodes with
  | nil => rw [hsc] at hmem; exact absurd hmem (by simp)
  | cons p rest =>
    have hfb : find_best_target_node paper g = (bestPair p rest).2 := by
      rw [find_best_target_node, hsc, chooseTarget]
    have hub := (bestPair_isMax p rest).2
    have hbm := (bestPair_isMax p rest).1
    rw [← hsc] at hub hbm
    obtain ⟨nb, hnb, hnbpref, hnbs, hnbeq⟩ := scoredNodes_mem.mp hbm
    have hpair : (scoreNode (contentOf paper) (find_best_target_node paper g),
        find_best_target_node paper g) = bestPair p rest := by
      rw [hfb, hnbeq]
    rw [hpair]
    exact hub _ hmem

/-! ### Counting lemmas -/

theorem countNodes_append (g : Graph) (es : List Edge)
    (m : Node) (id : String) :
    countNodes { nodes := g.nodes ++ [m], edges := es } id =
      countNodes g id + (if m.id = id then 1 else 0) := by
  rw [countNodes, countNodes, List.filter_append]
  by_cases h : m.id = id <;> simp [h]

theorem countSrc_append (g : Graph) (ns : List Node)
    (e : Edge) (id : String) :
    countSrc { nodes := ns, edges := g.edges ++ [e] } id =
      countSrc g id + (if e.source = id then 1 else 0) := by
  rw [countSrc, countSrc, List.filter_append]
  by_cases h : e.source = id <;> simp [h]

theorem countNodes_pos_iff (g : Graph) (id : String) :
    0 < countNodes g id ↔ id ∈ nodeIds g := by
  rw [countNodes, nodeIds, ← List.countP_eq_length_filter, List.countP_pos_iff]
  constructor
  · rintro ⟨n, hn, hp⟩
    exact List.mem_map.mpr ⟨n, hn, by simpa using hp⟩
  · rintro h
    obtain ⟨n, hn, hid⟩ := List.mem_map.mp h
    exact ⟨n, hn, by simpa using hid⟩

theorem countSrc_eq_zero {g : Graph} {id : String}
    (h : ∀ e ∈ g.edges, e.source ≠ id) : countSrc g id = 0 := by
  rw [countSrc, List.length_eq_zero, List.filter_eq_nil_iff]
  intro e he
  simpa using h e he

/-! ### The collection loop -/

theorem nodeIds_append (g : Graph) (es : List Edge) (m : Node) :
    nodeIds { nodes := g.nodes ++ [m], edges := es } = nodeIds g ++ [m.id] := by
  simp [nodeIds]

theorem runStep_elim {g : Graph} {q : ℚ × ℚ × Paper} {ok : Bool} {g' : Graph}
    (h : runStep g q = some (ok, g')) :
    ∃ msg, add_paper_to_graph q.1 q.2.1 g (extract_clinical_info q.2.2) q.2.2 =
      some (ok, msg, g') := by
  rw [runStep] at h
  obtain ⟨res, hres, hf⟩ := Option.map_eq_some'.mp h
  have h1 : res.1 = ok := congrArg Prod.fst hf
  have h2 : res.2.2 = g' := congrArg (fun p => p.2) hf
  refine ⟨res.2.1, ?_⟩
  rw [← h1, ← h2]
  simpa using hres

theorem runStep_total {g : Graph} (q : ℚ × ℚ × Paper) (hwf : WF g) :
    ∃ ok g', runStep g q = some (ok, g') := by
  obtain ⟨res, hres⟩ := @add_total g (extract_clinical_info q.2.2) _
    q.1 q.2.1 q.2.2 hwf.2.2 rfl (by simp)
  exact ⟨res.1, res.2.2, by rw [runStep, hres]; rfl⟩

/-- What one accepted step does: the candidate id was fresh, the graph
grows by exactly that node and one edge with it as source, and both
counters for the new id land at exactly one. -/
theorem runStep_success {g : Graph} {q : ℚ × ℚ × Paper} {g' : Graph}
    (hwf : WF g) (h : runStep g q = some (true, g')) :
    ("paper-" ++ q.2.2.pmid) ∉ nodeIds g ∧
    (∃ ref, g' = Graph.mk
      (g.nodes ++ [setPos q.1 q.2.1 (extract_clinical_info q.2.2)])
      (g.edges ++ [mkEdge g (setPos q.1 q.2.1 (extract_clinical_info q.2.2))
        (find_best_target_node q.2.2 g) ref])) ∧
    WF g' ∧
    countNodes g' ("paper-" ++ q.2.2.pmid) = 1 ∧
    countSrc g' ("paper-" ++ q.2.2.pmid) = 1 := by
  obtain ⟨msg, hadd⟩ := runStep_elim h
  obtain ⟨hmem, hchk, ci, ref, rest, hci, hrefs, hmsg, hg'⟩ := add_success_elim hadd
  have hid : (extract_clinical_info q.2.2).id = "paper-" ++ q.2.2.pmid := rfl
  rw [hid] at hmem
  obtain ⟨h1, h2, h3⟩ := hwf
  have hnodes : g'.nodes = g.nodes ++ [setPos q.1 q.2.1 (extract_clinical_info q.2.2)] := by
    rw [hg']
  have hedges : g'.edges = g.edges ++ [mkEdge g (setPos q.1 q.2.1 (extract_clinical_info q.2.2))
      (find_best_target_node q.2.2 g) ref] := by
    rw [hg']
  have hids : nodeIds g' = nodeIds g ++ ["paper-" ++ q.2.2.pmid] := by
    rw [hg', nodeIds_append]
    rfl
  have hc0 : countNodes g ("paper-" ++ q.2.2.pmid) = 0 :=
    Nat.eq_zero_of_not_pos fun hpos =>
      hmem ((countNodes_pos_iff g _).mp hpos)
  have hs0 : countSrc g ("paper-" ++ q.2.2.pmid) = 0 :=
    countSrc_eq_zero fun e he heq => hmem (heq ▸ h2 e he)
  refine ⟨hmem, ⟨ref, hg'⟩, ⟨?_, ?_, ?_⟩, ?_, ?_⟩
  · rw [idsNodup, hids]
    simp only [List.nodup_append, List.nodup_cons, List.nodup_nil]
    exact ⟨h1, ⟨by simp, trivial⟩, by simpa using hmem⟩
  · intro e he
    rw [hedges] at he
    rcases List.mem_append.mp he with he | he
    · rw [hids]
      exact List.mem_append_left _ (h2 e he)
    · rw [List.mem_singleton.mp he, hids]
      simp only [mkEdge, setPos_id, List.mem_append, List.mem_singleton]
      exact Or.inr hid
  · intro n hn hpre ci' hci'
    rw [hnodes] at hn
    rcases List.mem_append.mp hn with hn | hn
    · exact h3 n hn hpre ci' hci'
    · rw [List.mem_singleton.mp hn] at hci'
      rw [setPos_clinicalInfo] at hci'
      have : ci' = ci := by
        rw [hci] at hci'
        exact (Option.some_inj.mp hci').symm
      rw [this, hrefs]
      simp
  · rw [hg', countNodes_append, hc0,
      if_pos (by rw [setPos_id, hid])]
  · rw [hg', countSrc_append, hs0,
      if_pos (by simp only [mkEdge, setPos_id]; exact hid)]

/-- What one rejected step does: nothing. -/
theorem runStep_reject {g : Graph} {q : ℚ × ℚ × Paper} {g' : Graph}
    (h : runStep g q = some (false, g')) : g' = g := by
  obtain ⟨msg, hadd⟩ := runStep_elim h
  exact add_reject_elim hadd

theorem runStep_preserves {g : Graph} {q : ℚ × ℚ × Paper} {ok : Bool}
    {g' : Graph} (hwf : WF g) (h : runStep g q = some (ok, g')) :
    WF g' ∧ ∀ id, countNodes g id = 1 → countSrc g id = 1 →
      countNodes g' id = 1 ∧ countSrc g' id = 1 := by
  cases ok with
  | false =>
    rw [runStep_reject h]
    exact ⟨hwf, fun id h1 h2 => ⟨h1, h2⟩⟩
  | true =>
    obtain ⟨hmem, ⟨ref, hg'⟩, hwf', -, -⟩ := runStep_success hwf h
    refine ⟨hwf', fun id hn hs => ?_⟩
    have hidmem : id ∈ nodeIds g := (countNodes_pos_iff g id).mp (by omega)
    have hne : (setPos q.1 q.2.1 (extract_clinical_info q.2.2)).id ≠ id := by
      intro heq
      rw [setPos_id] at heq
      exact hmem (by
        rw [show ("paper-" ++ q.2.2.pmid) = (extract_clinical_info q.2.2).id from rfl,
          heq]
        exact hidmem)
    constructor
    · rw [hg', countNodes_append, if_neg hne, Nat.add_zero]
      exact hn
    · rw [hg', countSrc_append,
        if_neg (by simp only [mkEdge, setPos_id]; exact fun hc => hne (by rw [setPos_id]; exact hc)),
        Nat.add_zero]
      exact hs

/-- The master induction over the collection loop: starting from a
well-formed graph the run never raises, and every accepted paper id ends
with exactly one node and exactly one outgoing edge in the final
graph. -/
theorem runPapers_wf : ∀ (qs : List (ℚ × ℚ × Paper)) (g : Graph), WF g →
    ∃ gF, runPapers g qs = some gF ∧ WF gF ∧
      (∀ id, countNodes g id = 1 → countSrc g id = 1 →
        countNodes gF id = 1 ∧ countSrc gF id = 1) ∧
      ∀ id ∈ acceptedIds g qs, countNodes gF id = 1 ∧ countSrc gF id = 1 := by
  intro qs
  induction qs with
  | nil =>
    intro g hwf
    exact ⟨g, rfl, hwf, fun id h1 h2 => ⟨h1, h2⟩, by simp [acceptedIds]⟩
  | cons q rest ih =>
    intro g hwf
    obtain ⟨ok, g', hstep⟩ := runStep_total q hwf
    obtain ⟨hwf', hpres⟩ := runStep_preserves hwf hstep
    obtain ⟨gF, hrun, hwfF, hpresF, haccF⟩ := ih g' hwf'
    refine ⟨gF, ?_, hwfF, ?_, ?_⟩
    · rw [runPapers, hstep]
      exact hrun
    · intro id h1 h2
      obtain ⟨h1', h2'⟩ := hpres id h1 h2
      exact hpresF id h1' h2'
    · intro id hid
      rw [acceptedIds, hstep] at hid
      rcases List.mem_append.mp hid with hid | hid
      · cases ok with
        | false => simp at hid
        | true =>
          have : id = "paper-" ++ q.2.2.pmid := by simpa using hid
          subst this
          obtain ⟨-, -, -, hn1, hs1⟩ := runStep_success hwf hstep
          exact hpresF _ hn1 hs1
      · exact haccF id hid

/-! ### Concrete sample inputs -/

/-- The empty persisted graph (`{'nodes': [], 'edges': []}`). -/
def emptyGraph : Graph := Graph.mk [] []

/-- A sample paper with title `abcde`. -/
def pa : Paper := Paper.mk "1" "abcde" "" ["A B"] "2001"

/-- The reference record `extract_clinical_info` derives from `pa`. -/
def paRef : Reference := Reference.mk "abcde" "A B" "2001" "1"

/-- An incoming paper with title `abcdef` (similarity to `abcde` is
`10/11 > 0.8`). -/
def pIncoming : Paper := Paper.mk "2" "abcdef" "" [] ""

/-- A sample paper with title `abcd` (similarity of `abcdef` to `abcd`
is exactly `0.8`). -/
def pAbcd : Paper := Paper.mk "1" "abcd" "" [] ""

/-- A one-paper graph whose stored reference title is `abcd`. -/
def gAbcd : Graph := Graph.mk [extract_clinical_info pAbcd] []

/-- A one-paper graph whose stored reference title is `abcde`. -/
def gdup : Graph := Graph.mk [extract_clinical_info pa] []

/-- The graph produced by committing `pa` to the empty graph with both
random draws equal to `0`. -/
def sampleG1 : Graph :=
  Graph.mk [setPos 0 0 (extract_clinical_info pa)]
    [mkEdge emptyGraph (setPos 0 0 (extract_clinical_info pa)) "calf-pain" paRef]

/-- A domain node carrying only an id. -/
def domainNode (i : String) : Node := Node.mk i "" "cause" 0 0 "" 0 0 none

/-- Graph of the routing scenario: one matching and one unrelated
domain node. -/
def g6 : Graph :=
  Graph.mk [domainNode "gastrocnemius-overload", domainNode "unrelated-node"] []

/-- Paper whose abstract mentions muscle fatigue. -/
def p6 : Paper := Paper.mk "6" "" "muscle fatigue" [] ""

/-- Graph with two domain nodes that tie on the keyword score. -/
def g7 : Graph :=
  Graph.mk [domainNode "muscle-fatigue-a", domainNode "muscle-fatigue-b"] []

/-- `g7` with its two nodes inserted in the opposite order. -/
def g7swap : Graph :=
  Graph.mk [domainNode "muscle-fatigue-b", domainNode "muscle-fatigue-a"] []

/-- Paper whose abstract mentions muscle only. -/
def p7 : Paper := Paper.mk "7" "" "muscle" [] ""

/-- The scenario paper of the spec (external id 100). -/
def p100 : Paper :=
  Paper.mk "100" "Systematic review of nerve compression in the leg"
    "...nerve entrapment and compression..." [] ""

/-- The reference record `extract_clinical_info` derives from `p100`. -/
def p100ref : Reference :=
  Reference.mk "Systematic review of nerve compression in the leg" "" "" "100"

/-- A graph holding only the root/fallback domain node `calf-pain`. -/
def gCalf : Graph := Graph.mk [domainNode "calf-pain"] []

/-- The graph produced by committing `p100` to `gCalf` with both random
draws equal to `0`. -/
def gCalfRes : Graph :=
  Graph.mk (gCalf.nodes ++ [setPos 0 0 (extract_clinical_info p100)])
    (gCalf.edges ++
      [mkEdge gCalf (setPos 0 0 (extract_clinical_info p100)) "calf-pain" p100ref])

/-- A paper with an empty abstract. -/
def pEmptyAbs : Paper := Paper.mk "4" "t" "" [] ""

/-- A paper whose abstract is exactly `systematic review`. -/
def psys : Paper := Paper.mk "5" "t" "systematic review" [] ""

/-! ### Claims -/

/-- C9: a completed call of `add_paper_to_graph` never touches the
pre-existing nodes and edges: on acceptance it appends exactly one node
(the positioned candidate) at the end of the node sequence and exactly
one edge at the end of the edge sequence, and on rejection it returns
the input graph itself. -/
theorem commit_frame (r1 r2 : ℚ) (g : Graph) (node : Node) (paper : Paper)
    (res : Bool × String × Graph)
    (h : add_paper_to_graph r1 r2 g node paper = some res) :
    (res.1 = true →
      res.2.2.nodes = g.nodes ++ [setPos r1 r2 node] ∧
      ∃ ref, res.2.2.edges = g.edges ++
        [mkEdge g (setPos r1 r2 node) (find_best_target_node paper g) ref]) ∧
    (res.1 = false → res.2.2 = g) := by
  obtain ⟨ok, msg, g'⟩ := res
  constructor
  · intro hok
    simp only at hok
    subst hok
    obtain ⟨-, -, ci, ref, rest, -, -, -, hg⟩ := add_success_elim h
    exact ⟨by rw [hg], ref, by rw [hg]⟩
  · intro hok
    simp only at hok
    subst hok
    exact add_reject_elim h

/-- Witness for C9: the first commit of `pa` into the empty graph
appends exactly its node and its edge; the repeated commit returns the
graph unchanged. -/
theorem commit_frame_witness :
    (sampleG1.nodes = emptyGraph.nodes ++ [setPos 0 0 (extract_clinical_info pa)] ∧
      ∃ ref, sampleG1.edges = emptyGraph.edges ++
        [mkEdge emptyGraph (setPos 0 0 (extract_clinical_info pa))
          (find_best_target_node pa emptyGraph) ref]) ∧
    sampleG1 = sampleG1 :=
  ⟨(commit_frame 0 0 emptyGraph (extract_clinical_info pa) pa
      (true, "Connected to calf-pain", sampleG1) rfl).1 rfl,
   (commit_frame 1 1 sampleG1 (extract_clinical_info pa) pa
      (false, "Already exists (same PMID)", sampleG1) rfl).2 rfl⟩

/-- C10: the classifier always emits a `clinicalInfo` payload whose
references list is exactly one entry carrying the title, the joined
authors, the year and the external id of the paper; and on every graph
whose paper-derived nodes with a payload have nonempty reference lists
the duplicate-title scan is total. -/
theorem references_singleton (paper : Paper) :
    ∃ ci, (extract_clinical_info paper).clinicalInfo = some ci ∧
      ci.references = [Reference.mk paper.title (joinStr ", " paper.authors)
        paper.year paper.pmid] ∧
      ci.references.length = 1 ∧
      ∀ g, refsOK g → ∀ title, (check_duplicate_title g title).isSome := by
  refine ⟨_, rfl, rfl, rfl, fun g hg title => ?_⟩
  obtain ⟨o, ho⟩ := checkDupAux_total hg
  rw [check_duplicate_title, ho]
  rfl

/-- Witness for C10: the scan is total on the one-paper graph `gdup`. -/
theorem references_singleton_witness :
    (check_duplicate_title gdup "x").isSome := by
  obtain ⟨ci0, hci0, hr0, -, h4⟩ := references_singleton pa
  refine h4 gdup ?_ "x"
  intro n hn hp ci hci
  have hn' : n = extract_clinical_info pa := by simpa [gdup] using hn
  subst hn'
  rw [hci0] at hci
  rw [← Option.some_inj.mp hci, hr0]
  simp

/-- C2: a candidate whose id already occurs among the node ids is
rejected with the already-exists reason and the unchanged graph; hence
committing the same paper a second time always rejects it. -/
theorem exact_id_rejection :
    (∀ (r1 r2 : ℚ) (g : Graph) (node : Node) (paper : Paper),
      node.id ∈ nodeIds g →
      add_paper_to_graph r1 r2 g node paper =
        some (false, "Already exists (same PMID)", g)) ∧
    (∀ (r1 r2 r1' r2' : ℚ) (g : Graph) (paper : Paper) (msg : String) (g' : Graph),
      add_paper_to_graph r1 r2 g (extract_clinical_info paper) paper =
        some (true, msg, g') →
      add_paper_to_graph r1' r2' g' (extract_clinical_info paper) paper =
        some (false, "Already exists (same PMID)", g')) := by
  refine ⟨fun r1 r2 g node paper h => add_of_mem r1 r2 paper h, ?_⟩
  intro r1 r2 r1' r2' g paper msg g' h
  obtain ⟨-, -, ci, ref, rest, -, -, -, hg⟩ := add_success_elim h
  apply add_of_mem
  rw [hg, nodeIds_append]
  simp

/-- Witness for C2: the duplicate commit of `pa` is rejected both
against a graph already holding its node and right after its own
successful commit. -/
theorem exact_id_rejection_witness :
    add_paper_to_graph 0 0 gdup (extract_clinical_info pa) pa =
      some (false, "Already exists (same PMID)", gdup) ∧
    add_paper_to_graph 1 1 sampleG1 (extract_clinical_info pa) pa =
      some (false, "Already exists (same PMID)", sampleG1) :=
  ⟨exact_id_rejection.1 0 0 gdup (extract_clinical_info pa) pa (by decide),
   exact_id_rejection.2 0 0 1 1 emptyGraph pa "Connected to calf-pain"
     sampleG1 rfl⟩

/-- C1: each accepted commit appends exactly one node with the derived
id `paper-<externalId>` and exactly one edge with that id as source,
both in the same call, and a rejected call changes nothing; starting
from a well-formed graph, after any sequence of commits every accepted
id has exactly one node and exactly one outgoing edge. -/
theorem commit_unique_node_edge (g : Graph) (qs : List (ℚ × ℚ × Paper))
    (hwf : WF g) :
    (∀ (g₁ : Graph) (q : ℚ × ℚ × Paper) (ok : Bool) (g₂ : Graph),
      runStep g₁ q = some (ok, g₂) →
      (ok = true → ∃ node edge, node.id = "paper-" ++ q.2.2.pmid ∧
        edge.source = node.id ∧
        g₂.nodes = g₁.nodes ++ [node] ∧ g₂.edges = g₁.edges ++ [edge]) ∧
      (ok = false → g₂ = g₁)) ∧
    ∃ gF, runPapers g qs = some gF ∧
      ∀ id ∈ acceptedIds g qs, countNodes gF id = 1 ∧ countSrc gF id = 1 := by
  constructor
  · intro g₁ q ok g₂ hstep
    constructor
    · intro hok
      subst hok
      obtain ⟨msg, hadd⟩ := runStep_elim hstep
      obtain ⟨-, -, ci, ref, rest, -, -, -, hg⟩ := add_success_elim hadd
      exact ⟨setPos q.1 q.2.1 (extract_clinical_info q.2.2),
        mkEdge g₁ (setPos q.1 q.2.1 (extract_clinical_info q.2.2))
          (find_best_target_node q.2.2 g₁) ref,
        rfl, rfl, by rw [hg], by rw [hg]⟩
    · intro hok
      subst hok
      exact runStep_reject hstep
  · obtain ⟨gF, h1, -, -, h4⟩ := runPapers_wf qs g hwf
    exact ⟨gF, h1, h4⟩

/-- Witness for C1: running the loop on the empty graph with the same
paper twice. -/
theorem commit_unique_node_edge_witness :
    ∃ gF, runPapers emptyGraph [(0, 0, pa), (1, 1, pa)] = some gF ∧
      ∀ id ∈ acceptedIds emptyGraph [(0, 0, pa), (1, 1, pa)],
        countNodes gF id = 1 ∧ countSrc gF id = 1 :=
  (commit_unique_node_edge emptyGraph [(0, 0, pa), (1, 1, pa)]
    ⟨by simp [idsNodup, nodeIds, emptyGraph],
     fun e he => absurd he (List.not_mem_nil e),
     fun n hn => absurd hn (List.not_mem_nil n)⟩).2

/-- C6: when at least one domain node scores positively the router
returns a domain node of the graph attaining the highest keyword score,
and when every domain node scores zero (in particular when there are no
domain nodes) it returns the fixed fallback id `calf-pain`. -/
theorem router_max_or_fallback (g : Graph) (paper : Paper) :
    ((∃ n ∈ g.nodes, strStartsWith n.id "paper-" = false ∧
        0 < scoreNode (contentOf paper) n.id) →
      (∃ n ∈ g.nodes, strStartsWith n.id "paper-" = false ∧
        n.id = find_best_target_node paper g ∧
        0 < scoreNode (contentOf paper) n.id) ∧
      ∀ n ∈ g.nodes, strStartsWith n.id "paper-" = false →
        scoreNode (contentOf paper) n.id ≤
          scoreNode (contentOf paper) (find_best_target_node paper g)) ∧
    ((∀ n ∈ g.nodes, strStartsWith n.id "paper-" = false →
        scoreNode (contentOf paper) n.id = 0) →
      find_best_target_node paper g = "calf-pain") :=
  ⟨find_best_max, find_best_fallback⟩

/-- Witness for C6: the muscle-fatigue paper routed on `g6` picks
`gastrocnemius-overload` over the zero-scored node, and routing on the
empty graph falls back to `calf-pain`. -/
theorem router_max_or_fallback_witness :
    find_best_target_node p6 g6 = "gastrocnemius-overload" ∧
    (∀ n ∈ g6.nodes, strStartsWith n.id "paper-" = false →
      scoreNode (contentOf p6) n.id ≤
        scoreNode (contentOf p6) (find_best_target_node p6 g6)) ∧
    find_best_target_node p6 emptyGraph = "calf-pain" := by
  refine ⟨by decide, ((router_max_or_fallback g6 p6).1 ?_).2,
    (router_max_or_fallback emptyGraph p6).2 ?_⟩
  · exact ⟨domainNode "gastrocnemius-overload", by simp [g6], by decide, by decide⟩
  · intro n hn
    exact absurd hn (List.not_mem_nil n)

/-- C7 counterexample: on `g7` the two domain nodes tie with a positive
score and `muscle-fatigue-a` is lexicographically first, yet the router
does not return it (it returns the lexicographically last tied id). -/
theorem router_tie_counterexample :
    scoreNode (contentOf p7) (domainNode "muscle-fatigue-a").id =
      scoreNode (contentOf p7) (domainNode "muscle-fatigue-b").id ∧
    0 < scoreNode (contentOf p7) (domainNode "muscle-fatigue-a").id ∧
    "muscle-fatigue-a" < "muscle-fatigue-b" ∧
    find_best_target_node p7 g7 ≠ "muscle-fatigue-a" := by
  refine ⟨by decide, by decide, ?_, by decide⟩
  rw [String.lt_iff_toList_lt]
  decide

/-- C7 amended: when two or more domain nodes tie for the strictly
highest positive score, the router returns a node attaining that score
and every tied node id is at most the returned id (the tie breaks
towards the lexicographically largest id, because the descending tuple
sort reverses the id order as well); the choice does not depend on the
insertion order of the nodes. -/
theorem router_tie_lex_greatest (g : Graph) (paper : Paper) (n₁ n₂ : Node)
    (h₁ : n₁ ∈ g.nodes) (_h₂ : n₂ ∈ g.nodes)
    (hd₁ : strStartsWith n₁.id "paper-" = false)
    (_hd₂ : strStartsWith n₂.id "paper-" = false)
    (_hne : n₁.id ≠ n₂.id)
    (_htie : scoreNode (contentOf paper) n₂.id = scoreNode (contentOf paper) n₁.id)
    (hpos : 0 < scoreNode (contentOf paper) n₁.id)
    (htop : ∀ n ∈ g.nodes, strStartsWith n.id "paper-" = false →
      scoreNode (contentOf paper) n.id ≤ scoreNode (contentOf paper) n₁.id) :
    (∃ n ∈ g.nodes, strStartsWith n.id "paper-" = false ∧
      n.id = find_best_target_node paper g ∧
      scoreNode (contentOf paper) n.id = scoreNode (contentOf paper) n₁.id) ∧
    (∀ n ∈ g.nodes, strStartsWith n.id "paper-" = false →
      scoreNode (contentOf paper) n.id = scoreNode (contentOf paper) n₁.id →
      n.id ≤ find_best_target_node paper g) ∧
    (∀ g' : Graph, g.nodes.Perm g'.nodes →
      find_best_target_node paper g' = find_best_target_node paper g) := by
  obtain ⟨⟨nb, hnb, hnbd, hnbeq, hnbpos⟩, hub⟩ :=
    find_best_max ⟨n₁, h₁, hd₁, hpos⟩
  have hfbscore : scoreNode (contentOf paper) (find_best_target_node paper g) =
      scoreNode (contentOf paper) n₁.id := by
    apply le_antisymm
    · rw [← hnbeq]
      exact htop nb hnb hnbd
    · exact hub n₁ h₁ hd₁
  refine ⟨⟨nb, hnb, hnbd, hnbeq, by rw [hnbeq, hfbscore]⟩, ?_,
    fun g' hp => (find_best_perm paper hp).symm⟩
  intro n hn hdn hsn
  have hple := @find_best_pair_ub g paper n hn hdn (by rw [hsn]; exact hpos)
  rcases hple with hlt | hand
  · exfalso
    have hlt' : scoreNode (contentOf paper) n.id <
        scoreNode (contentOf paper) (find_best_target_node paper g) := hlt
    rw [hfbscore, hsn] at hlt'
    exact lt_irrefl _ hlt'
  · exact hand.2

/-- Witness for C7 amended: on the tied graph `g7` the returned target
is at least `muscle-fatigue-b`, and permuting the node order does not
change the choice. -/
theorem router_tie_lex_greatest_witness :
    "muscle-fatigue-b" ≤ find_best_target_node p7 g7 ∧
    find_best_target_node p7 g7swap = find_best_target_node p7 g7 := by
  have h := router_tie_lex_greatest g7 p7 (domainNode "muscle-fatigue-a")
    (domainNode "muscle-fatigue-b") (by simp [g7]) (by simp [g7])
    (by decide) (by decide) (by decide) (by decide) (by decide) (by decide)
  exact ⟨h.2.1 (domainNode "muscle-fatigue-b") (by simp [g7]) (by decide)
      (by decide),
    h.2.2 g7swap (List.Perm.swap (domainNode "muscle-fatigue-b")
      (domainNode "muscle-fatigue-a") [])⟩

/-- C8 counterexample: the empty graph satisfies I3 vacuously, yet the
accepted commit of `p100` appends an edge whose target `calf-pain` is
not a node id of the resulting graph. -/
theorem edge_refs_counterexample :
    edgesOK emptyGraph ∧
    (add_paper_to_graph (1/2) (1/2) emptyGraph
        (extract_clinical_info p100) p100).map
      (fun r => (r.1, r.2.2.edges.map Edge.target, nodeIds r.2.2)) =
      some (true, ["calf-pain"], ["paper-100"]) ∧
    "calf-pain" ∉ (["paper-100"] : List String) :=
  ⟨fun e he => absurd he (List.not_mem_nil e), rfl, by decide⟩

/-- C8 amended: on a graph satisfying I3 that also contains a node with
the fallback id `calf-pain`, every accepted commit keeps I3: the
appended edge references existing node ids at both ends. -/
theorem edge_refs_amended (r1 r2 : ℚ) (g : Graph) (node : Node)
    (paper : Paper) (msg : String) (g' : Graph)
    (hI3 : edgesOK g) (hcp : "calf-pain" ∈ nodeIds g)
    (h : add_paper_to_graph r1 r2 g node paper = some (true, msg, g')) :
    edgesOK g' := by
  obtain ⟨hmem, -, ci, ref, rest, hci, hrefs, -, hg⟩ := add_success_elim h
  have hids : nodeIds g' = nodeIds g ++ [node.id] := by
    rw [hg, nodeIds_append, setPos_id]
  intro e he
  have he' : e ∈ g.edges ++
      [mkEdge g (setPos r1 r2 node) (find_best_target_node paper g) ref] := by
    rw [hg] at he
    exact he
  rcases List.mem_append.mp he' with he2 | he2
  · obtain ⟨hs, ht⟩ := hI3 e he2
    constructor
    · rw [hids]; exact List.mem_append_left _ hs
    · rw [hids]; exact List.mem_append_left _ ht
  · rw [List.mem_singleton.mp he2]
    constructor
    · rw [hids]
      have hsrc : (mkEdge g (setPos r1 r2 node)
          (find_best_target_node paper g) ref).source = node.id := rfl
      rw [hsrc]
      simp
    · rw [hids]
      have htgt : (mkEdge g (setPos r1 r2 node)
          (find_best_target_node paper g) ref).target =
            find_best_target_node paper g := rfl
      rw [htgt]
      rcases find_best_cases g paper with hcase | ⟨n, hn, -, hneq⟩
      · rw [hcase]
        exact List.mem_append_left _ hcp
      · rw [← hneq]
        exact List.mem_append_left _ (List.mem_map.mpr ⟨n, hn, rfl⟩)

/-- Witness for C8 amended: committing `p100` to the graph containing
only the `calf-pain` node yields a graph whose single edge references
existing nodes. -/
theorem edge_refs_amended_witness : edgesOK gCalfRes := by
  refine edge_refs_amended 0 0 gCalf (extract_clinical_info p100) p100
    "Connected to calf-pain" gCalfRes ?_ ?_ ?_
  · intro e he
    exact absurd he (List.not_mem_nil e)
  · decide
  · rfl

/-- C3 counterexample: against the stored title `abcd` the incoming
title `abcdef` has similarity exactly `0.8`, which satisfies the claim
threshold (at least 0.8), yet the scan reports no duplicate and the
commit is accepted: the code rejects only on similarity strictly above
0.8. -/
theorem dup_threshold_counterexample :
    simRatio (lowerStr pIncoming.title) (lowerStr pAbcd.title) = 4/5 ∧
    check_duplicate_title gAbcd pIncoming.title = some none ∧
    (add_paper_to_graph 0 0 gAbcd
        (extract_clinical_info pIncoming) pIncoming).map (fun r => r.1) =
      some true := by
  have hr : simRatio (lowerStr pIncoming.title) (lowerStr pAbcd.title) = 4/5 := by
    rw [show lowerStr pIncoming.title = "abcdef" from by decide,
      show lowerStr pAbcd.title = "abcd" from by decide,
      simRatio_eq _ _ (by decide),
      show matchSum "abcdef".data "abcd".data = 4 from by decide,
      show ("abcdef".data.length) = 6 from by decide,
      show ("abcd".data.length) = 4 from by decide]
    norm_num
  have hchk : check_duplicate_title gAbcd pIncoming.title = some none := by
    apply checkDupAux_none
    intro n hn hp ci hci
    have hn' : n = extract_clinical_info pAbcd := by simpa [gAbcd] using hn
    subst hn'
    rw [extract_refs] at hci
    refine ⟨Reference.mk pAbcd.title (joinStr ", " pAbcd.authors)
      pAbcd.year pAbcd.pmid, [], ?_, ?_⟩
    · rw [← Option.some_inj.mp hci]
    · exact le_of_eq hr
  refine ⟨hr, hchk, ?_⟩
  have hmem2 : (extract_clinical_info pIncoming).id ∉ nodeIds gAbcd := by decide
  rw [add_paper_to_graph, if_neg hmem2, hchk]
  rfl

/-- C3 amended: the duplicate-title scan rejects exactly when some
stored reference title has similarity strictly greater than 0.8,
reporting the first such node in insertion order, and the commit is
then refused with the graph unchanged. -/
theorem dup_title_strict_threshold (g : Graph) (title : String)
    (pre post : List Node) (n : Node) (ci : ClinicalInfo) (ref : Reference)
    (rest : List Reference)
    (hsplit : g.nodes = pre ++ n :: post)
    (hn : strStartsWith n.id "paper-" = true)
    (hci : n.clinicalInfo = some ci)
    (href : ci.references = ref :: rest)
    (hsim : 4/5 < simRatio (lowerStr title) (lowerStr ref.title))
    (hpre : ∀ m ∈ pre, strStartsWith m.id "paper-" = true →
      ∀ ci', m.clinicalInfo = some ci' →
        ∃ r rs, ci'.references = r :: rs ∧
          simRatio (lowerStr title) (lowerStr r.title) ≤ 4/5) :
    check_duplicate_title g title = some (some n.id) ∧
    ∀ (r1 r2 : ℚ) (node : Node) (paper : Paper), paper.title = title →
      node.id ∉ nodeIds g →
      add_paper_to_graph r1 r2 g node paper =
        some (false, "Duplicate title (similar to " ++ n.id ++ ")", g) := by
  have hchk : check_duplicate_title g title = some (some n.id) := by
    rw [check_duplicate_title, hsplit]
    exact checkDupAux_finds hn hci href hsim hpre
  refine ⟨hchk, fun r1 r2 node paper hpt hmem => ?_⟩
  rw [add_paper_to_graph, if_neg hmem, hpt, hchk]

/-- Witness for C3 amended: `abcdef` against the stored `abcde` has
similarity `10/11 > 0.8` and is rejected naming `paper-1`. -/
theorem dup_title_strict_threshold_witness :
    check_duplicate_title gdup pIncoming.title = some (some "paper-1") ∧
    add_paper_to_graph 0 0 gdup (extract_clinical_info pIncoming) pIncoming =
      some (false, "Duplicate title (similar to paper-1)", gdup) := by
  have h1 : simRatio (lowerStr pIncoming.title) (lowerStr pa.title) = 10/11 := by
    rw [show lowerStr pIncoming.title = "abcdef" from by decide,
      show lowerStr pa.title = "abcde" from by decide,
      simRatio_eq _ _ (by decide),
      show matchSum "abcdef".data "abcde".data = 5 from by decide,
      show ("abcdef".data.length) = 6 from by decide,
      show ("abcde".data.length) = 5 from by decide]
    norm_num
  have hratio : (4:ℚ)/5 < simRatio (lowerStr pIncoming.title)
      (lowerStr (Reference.mk pa.title (joinStr ", " pa.authors)
        pa.year pa.pmid).title) := by
    show (4:ℚ)/5 < simRatio (lowerStr pIncoming.title) (lowerStr pa.title)
    rw [h1]
    norm_num
  have h := dup_title_strict_threshold gdup pIncoming.title [] []
    (extract_clinical_info pa)
    (ClinicalInfo.mk ((takeStr pa.abstract 200) ++ "...")
      (pa.title ++ " (" ++ joinStr ", " pa.authors ++ ", " ++ pa.year ++ ")")
      [Reference.mk pa.title (joinStr ", " pa.authors) pa.year pa.pmid])
    (Reference.mk pa.title (joinStr ", " pa.authors) pa.year pa.pmid) []
    rfl (by decide) (extract_refs pa) rfl hratio
    (fun m hm => absurd hm (List.not_mem_nil m))
  exact ⟨h.1, h.2 0 0 (extract_clinical_info pIncoming) pIncoming rfl (by decide)⟩

/-- C4: the classifier assigns category and color by first match over the
lower-cased abstract, in the fixed priority order
muscle/fatigue → nerve/compression → vascular/blood flow → default, with
the code's four color tokens; an empty abstract falls to the
evidence/default branch. -/
theorem classify_first_match (paper : Paper) :
    ((extract_clinical_info paper).type, (extract_clinical_info paper).color) =
      catColorSpec paper.abstract ∧
    (paper.abstract = "" →
      (extract_clinical_info paper).type = "evidence" ∧
      (extract_clinical_info paper).color = "#607d8b") := by
  refine ⟨rfl, fun h => ?_⟩
  have h2 : ((extract_clinical_info paper).type,
      (extract_clinical_info paper).color) = catColorSpec paper.abstract := rfl
  rw [h] at h2
  have h3 : catColorSpec "" = ("evidence", "#607d8b") := by decide
  rw [h3] at h2
  exact ⟨congrArg Prod.fst h2, congrArg Prod.snd h2⟩

/-- Witness for C4 at a paper with an empty abstract. -/
theorem classify_first_match_witness :
    (extract_clinical_info pEmptyAbs).type = "evidence" ∧
    (extract_clinical_info pEmptyAbs).color = "#607d8b" :=
  (classify_first_match pEmptyAbs).2 rfl

/-- C5 counterexample: for the paper whose abstract is
`systematic review` the strength is 0.95 and the size is 24, which is
not `15 + round(0.95 × 10) = 25`: the code truncates rather than
rounds. -/
theorem size_round_counterexample :
    (extract_clinical_info psys).importance = 95/100 ∧
    (extract_clinical_info psys).size = 24 ∧
    ((extract_clinical_info psys).size ≠
      15 + round ((extract_clinical_info psys).importance * 10)) := by
  have h1 : (extract_clinical_info psys).importance = 95/100 := rfl
  have h2 : (extract_clinical_info psys).size =
      15 + Int.floor ((95/100 : ℚ) * 10) := rfl
  have h3 : ((95 : ℚ)/100) * 10 = 19/2 := by norm_num
  have h4 : Int.floor ((19 : ℚ)/2) = 9 := by
    rw [Int.floor_eq_iff]; norm_num
  have h5 : round ((19 : ℚ)/2) = 10 := by
    rw [round_eq]
    norm_num
  refine ⟨h1, ?_, ?_⟩
  · rw [h2, h3, h4]
    decide
  · rw [h2, h1, h3, h4, h5]
    decide

/-- C5 amended: the strength is the first-match table over the
lower-cased abstract (0.95 / 0.85 / 0.60 / 0.70) and the size is
`15 + floor(strength × 10)` (Python `int` truncation); in particular
strength 0.95 yields size 24. -/
theorem strength_and_size (paper : Paper) :
    (extract_clinical_info paper).importance = strengthSpec paper.abstract ∧
    (extract_clinical_info paper).size =
      15 + Int.floor ((extract_clinical_info paper).importance * 10) ∧
    ((extract_clinical_info paper).importance = 95/100 →
      (extract_clinical_info paper).size = 24) := by
  refine ⟨rfl, rfl, fun h => ?_⟩
  have h2 : (extract_clinical_info paper).size =
      15 + Int.floor ((extract_clinical_info paper).importance * 10) := rfl
  rw [h2, h]
  rw [show ((95 : ℚ)/100) * 10 = 19/2 by norm_num]
  rw [show Int.floor ((19 : ℚ)/2) = 9 from by rw [Int.floor_eq_iff]; norm_num]
  decide

/-- Witness for C5 amended at the systematic-review paper. -/
theorem strength_and_size_witness :
    (extract_clinical_info psys).size = 24 :=
  (strength_and_size psys).2.2 rfl

end PaperCollector
